import Mathlib

/-!
Verification development for the TI-84 style calculator repository
(`ti84_engine.py`, `graphing_engine.py`).

The Python code is shallowly embedded as executable Lean definitions:

* Python float values are modelled as exact, unnormalised fractions
  (`PyNum`), with all comparisons done by cross multiplication.  Real
  float rounding is not modelled; every claim under study only exercises
  values and thresholds where exact rational arithmetic agrees with the
  float computation.
* Strings are processed as `List Char`; recursive scanners carry an
  explicit fuel argument so that the kernel can evaluate them.
* `eval` with the restricted namespace is modelled by a tokenizer,
  a recursive-descent parser for the Python expression subset reachable
  from the translator (literals, names, attribute access, calls, unary
  `+`/`-`, binary `+ - * / % **`, parentheses), and an AST interpreter
  that resolves names only through the engine's `allowed_names` mapping.
* Transcendental function results (`sin`, `cos`, ..., `exp`, logarithms,
  inexact square roots and fractional powers) have no rational value; the
  model returns a placeholder value 0 for them while reproducing every
  argument-domain check of the Python functions.  No theorem below
  depends on such a value.
-/

set_option maxRecDepth 100000

namespace TI84

/-- Decidable equality for `Except` results, used to evaluate the model
on concrete inputs. -/
instance {ε α : Type} [DecidableEq ε] [DecidableEq α] : DecidableEq (Except ε α) := fun a b =>
  match a, b with
  | .ok x, .ok y =>
    if h : x = y then .isTrue (by rw [h]) else .isFalse (by intro hc; cases hc; exact h rfl)
  | .error x, .error y =>
    if h : x = y then .isTrue (by rw [h]) else .isFalse (by intro hc; cases hc; exact h rfl)
  | .ok _, .error _ => .isFalse (by intro hc; cases hc)
  | .error _, .ok _ => .isFalse (by intro hc; cases hc)

/-! ## Exact fraction model of Python float values -/

/-- An exact, unnormalised fraction `num / den` (with `den > 0` at every
construction site) standing in for a Python float value. -/
structure PyNum where
  num : Int
  den : Nat
  deriving DecidableEq, Repr

/-- Embed an integer. -/
def PyNum.ofInt (n : Int) : PyNum := ⟨n, 1⟩

instance : OfNat PyNum n := ⟨PyNum.ofInt n⟩

/-- Value equality of two fractions (cross multiplication). -/
def PyNum.qeq (a b : PyNum) : Bool := a.num * b.den == b.num * a.den

/-- Value ordering of two fractions (denominators are positive). -/
def PyNum.qlt (a b : PyNum) : Bool := decide (a.num * b.den < b.num * a.den)

/-- `a ≤ b` on fraction values. -/
def PyNum.qle (a b : PyNum) : Bool := decide (a.num * b.den ≤ b.num * a.den)

/-- Absolute value. -/
def PyNum.qabs (a : PyNum) : PyNum := ⟨a.num.natAbs, a.den⟩

/-- Negation. -/
def PyNum.qneg (a : PyNum) : PyNum := ⟨-a.num, a.den⟩

/-- Addition. -/
def PyNum.qadd (a b : PyNum) : PyNum := ⟨a.num * b.den + b.num * a.den, a.den * b.den⟩

/-- Subtraction. -/
def PyNum.qsub (a b : PyNum) : PyNum := ⟨a.num * b.den - b.num * a.den, a.den * b.den⟩

/-- Multiplication. -/
def PyNum.qmul (a b : PyNum) : PyNum := ⟨a.num * b.num, a.den * b.den⟩

/-- Division; callers must rule out `b.num = 0` first (the evaluator
raises `ZeroDivisionError` there, as Python does for floats). -/
def PyNum.qdiv (a b : PyNum) : PyNum :=
  if b.num < 0 then ⟨-(a.num * b.den), a.den * b.num.natAbs⟩
  else ⟨a.num * b.den, a.den * b.num.natAbs⟩

/-- Whether the fraction is zero. -/
def PyNum.isZero (a : PyNum) : Bool := a.num == 0

/-- Whether the fraction is an integer value (Python `value == int(value)`). -/
def PyNum.isInt (a : PyNum) : Bool := a.num % (a.den : Int) == 0

/-- Truncation toward zero, Python `int(value)`. -/
def PyNum.trunc (a : PyNum) : Int := a.num.tdiv a.den

/-- Floor, used for Python `%` semantics. -/
def PyNum.qfloor (a : PyNum) : Int := a.num.fdiv a.den

/-- Natural-number power. -/
def PyNum.qpowNat (a : PyNum) : Nat → PyNum
  | 0 => ⟨1, 1⟩
  | n + 1 => (a.qpowNat n).qmul a

/-- Power with an integer exponent; negative exponents invert (callers
rule out base zero with a negative exponent). -/
def PyNum.qpowInt (a : PyNum) (e : Int) : PyNum :=
  match e with
  | .ofNat n => a.qpowNat n
  | .negSucc n => (PyNum.ofInt 1).qdiv (a.qpowNat (n + 1))

/-- `10 ^ e` for an integer `e`. -/
def pow10 (e : Int) : PyNum := (PyNum.ofInt 10).qpowInt e

/-! ## Character-level string helpers (Python `str` operations) -/

/-- The whitespace characters stripped by `str.strip()` (ASCII subset;
the exotic Unicode whitespace Python also strips is not modelled, and no
claim exercises it). -/
def isPyWs (c : Char) : Bool :=
  c = ' ' ∨ c = '\t' ∨ c = '\n' ∨ c = '\r' ∨ c = '\x0b' ∨ c = '\x0c'

/-- `str.strip()` on a character list. -/
def pyStrip (l : List Char) : List Char :=
  ((l.dropWhile isPyWs).reverse.dropWhile isPyWs).reverse

/-- One fuelled pass of Python `str.replace(pat, rep)`: scan left to
right, replace each non-overlapping occurrence of `pat`.  Fuel bounds the
number of scanning steps; `l.length` steps always suffice. -/
def replaceAux (pat rep : List Char) : Nat → List Char → List Char
  | 0, l => l
  | _ + 1, [] => []
  | fuel + 1, c :: cs =>
    if pat.isPrefixOf (c :: cs) then
      rep ++ replaceAux pat rep fuel ((c :: cs).drop pat.length)
    else
      c :: replaceAux pat rep fuel cs

/-- Python `str.replace(pat, rep)` (for the non-empty patterns the
translator uses). -/
def pyReplace (l pat rep : List Char) : List Char :=
  replaceAux pat rep l.length l

/-! ## The factorial rewriting regex

`re.sub(r"(?P<target>(?:\([^()]*\)|\b[a-zA-Z_]\w*\b|\d+(?:\.\d+)?))!", ...)`
is modelled by a left-to-right scanner.  At each position it attempts, in
the order of the regex alternatives, to match

* a parenthesised group without nested parentheses,
* an identifier (ASCII word characters, starting at a word boundary),
* a numeric literal with an optional fraction part,

each immediately followed by `'!'`.  On a match the target is wrapped as
`math.factorial(int(target))` and scanning resumes after the `'!'`;
otherwise one character is emitted.  Non-ASCII word characters are not
modelled (no claim exercises them). -/

/-- ASCII word character, regex `\w`. -/
def isWordChar (c : Char) : Bool := c.isAlphanum ∨ c = '_'

/-- Regex `[a-zA-Z_]`, the leading character of the identifier alternative. -/
def isIdentStart (c : Char) : Bool := c.isAlpha ∨ c = '_'

/-- The replacement text `math.factorial(int(<target>))`. -/
def factWrap (target : List Char) : List Char :=
  "math.factorial(int(".toList ++ target ++ "))".toList

/-- Consume a leading `')'`. -/
def closeParen : List Char → Option (List Char)
  | ')' :: r => some r
  | _ => none

/-- Consume a leading `'!'`. -/
def bangSplit : List Char → Option (List Char)
  | '!' :: r => some r
  | _ => none

/-- Consume a leading `'.'` followed by a digit (the optional fraction
part of the numeric alternative). -/
def dotDigitSplit : List Char → Option (Char × List Char)
  | '.' :: d :: r => if d.isDigit then some (d, r) else none
  | _ => none

/-- Word boundary `\b` before the current position: holds when there is
no preceding character or the preceding character is not a word character. -/
def atBoundary (prev : Option Char) : Bool :=
  match prev with
  | none => true
  | some d => ¬ isWordChar d

/-- Try the regex match at the current position.  `prev` is the
character preceding the position (for the `\b` boundary); returns the
matched target and the remainder after the closing `'!'`. -/
def factMatch (prev : Option Char) (l : List Char) : Option (List Char × List Char) :=
  match l with
  | [] => none
  | c :: cs =>
    if c = '(' then
      -- alternative 1: \( [^()]* \) followed by !
      match closeParen (cs.span (fun d => ¬ (d = '(' ∨ d = ')'))).2 with
      | some r2 =>
        match bangSplit r2 with
        | some rest => some ('(' :: (cs.span (fun d => ¬ (d = '(' ∨ d = ')'))).1 ++ [')'], rest)
        | none => none
      | none => none
    else if isIdentStart c ∧ atBoundary prev then
      -- alternative 2: \b [a-zA-Z_] \w* \b followed by !
      match bangSplit (cs.span isWordChar).2 with
      | some rest => some (c :: (cs.span isWordChar).1, rest)
      | none => none
    else if c.isDigit then
      -- alternative 3: \d+ (\.\d+)? followed by !
      match bangSplit (cs.span Char.isDigit).2 with
      | some rest => some (c :: (cs.span Char.isDigit).1, rest)
      | none =>
        match dotDigitSplit (cs.span Char.isDigit).2 with
        | some (d, rest2) =>
          match bangSplit (rest2.span Char.isDigit).2 with
          | some rest =>
            some (c :: (cs.span Char.isDigit).1 ++ '.' :: d :: (rest2.span Char.isDigit).1, rest)
          | none => none
        | none => none
    else none

/-- Fuelled scanner for the factorial substitution. -/
def factSubAux : Nat → Option Char → List Char → List Char
  | 0, _, l => l
  | _ + 1, _, [] => []
  | fuel + 1, prev, c :: cs =>
    match factMatch prev (c :: cs) with
    | some (target, rest) => factWrap target ++ factSubAux fuel (some '!') rest
    | none => c :: factSubAux fuel (some c) cs

/-- The factorial substitution applied to a whole string. -/
def factSub (l : List Char) : List Char :=
  factSubAux l.length none l

/-! ## Engine state (`TI84Engine` dataclass) -/

/-- `EvaluationResult`: the outcome container appended to history. -/
structure EvaluationResult where
  expression : String
  value : String
  deriving DecidableEq, Repr

/-- The mutable state of a `TI84Engine` instance.  `history_limit` is a
Python `int`; only non-negative configurations are modelled (the default
is 20 and the UI never changes it). -/
structure Engine where
  historyLimit : Nat
  memory : PyNum
  history : List EvaluationResult
  deriving DecidableEq, Repr

/-- A freshly constructed engine: `TI84Engine()`. -/
def initEngine : Engine := ⟨20, 0, []⟩

/-- The TI-84 error messages raised by the engine. -/
def syntaxMsg : String := "ERROR: SYNTAX"

/-- `ERROR: MATH`. -/
def mathMsg : String := "ERROR: MATH"

/-- `ERROR: DIVIDE BY 0`. -/
def divMsg : String := "ERROR: DIVIDE BY 0"

/-- `ERROR: OVERFLOW`. -/
def overflowMsg : String := "ERROR: OVERFLOW"

/-- `ERROR: WINDOW`. -/
def windowMsg : String := "ERROR: WINDOW"

/-- The string substituted for `Ans`:
`self.history[-1].value if self.history else "0"`. -/
def ansValue (st : Engine) : String :=
  match st.history.getLast? with
  | some r => r.value
  | none => "0"

/-- Python slice `l[-n:]` for a non-negative `n` (note that `n = 0`
yields the whole list, exactly as in Python). -/
def pyLastSlice (n : Nat) (l : List EvaluationResult) : List EvaluationResult :=
  if n = 0 then l else l.drop (l.length - n)

/-- `TI84Engine._append_history`. -/
def appendHistory (st : Engine) (e : EvaluationResult) : Engine :=
  let h := st.history ++ [e]
  if h.length > st.historyLimit then
    { st with history := pyLastSlice st.historyLimit h }
  else
    { st with history := h }

/-- `TI84Engine.prepare_expression`: strip, reject empty input, apply
the five textual replacements in the source order (`Ans`, `^` → `**`,
`×` → `*`, `÷` → `/`, `√` → `sqrt`, innermost first below), then the
factorial regex. -/
def prepareExpression (st : Engine) (expression : String) : Except String String :=
  if pyStrip expression.toList = [] then .error syntaxMsg
  else
    .ok (String.mk (factSub
      (pyReplace
        (pyReplace
          (pyReplace
            (pyReplace
              (pyReplace (pyStrip expression.toList) ['A', 'n', 's'] (ansValue st).toList)
              ['^'] ['*', '*'])
            ['×'] ['*'])
          ['÷'] ['/'])
        ['√'] ['s', 'q', 'r', 't'])))

/-! ## Tokenizer for the Python expression subset

Models CPython tokenization of the arithmetic expressions the translator
can produce: numeric literals (`123`, `1.5`, `5.`, `.5`, with an optional
exponent part), identifiers, the operators `+ - * / % **`, parentheses,
commas and attribute dots.  Any other character (and a malformed
exponent) is a Python `SyntaxError`, which the parser reports as `none`. -/

/-- Tokens. -/
inductive Tok where
  | num (v : PyNum)
  | name (s : String)
  | plus | minus | star | slash | percent | dstar
  | lparen | rparen | comma | dot
  deriving DecidableEq, Repr

/-- Build the fraction `intPart.fracDigits * 10 ^ exp`. -/
def mkLiteral (intPart : List Char) (fracDigits : List Char) (exp : Int) : PyNum :=
  let ip : Nat := intPart.foldl (fun a c => a * 10 + (c.toNat - '0'.toNat)) 0
  let fp : Nat := fracDigits.foldl (fun a c => a * 10 + (c.toNat - '0'.toNat)) 0
  let base : PyNum := ⟨(ip : Int) * (10 ^ fracDigits.length : Nat) + fp, 10 ^ fracDigits.length⟩
  base.qmul (pow10 exp)

/-- Lex the optional exponent part (after the mantissa).  Returns the
exponent value and the rest, or `none` for a malformed exponent. -/
def lexExponent (l : List Char) : Option (Int × List Char) :=
  match l with
  | 'e' :: rest | 'E' :: rest =>
    let signAndDigits : Option (Bool × List Char) :=
      match rest with
      | '+' :: r => some (false, r)
      | '-' :: r => some (true, r)
      | r => some (false, r)
    match signAndDigits with
    | some (neg, r) =>
      let p := r.span Char.isDigit
      if p.1 = [] then none
      else
        let e : Nat := p.1.foldl (fun a c => a * 10 + (c.toNat - '0'.toNat)) 0
        some (if neg then -(e : Int) else (e : Int), p.2)
    | none => none
  | rest => some (0, rest)

/-- Lex a numeric literal starting at a digit or at a dot followed by a
digit.  Mirrors the shape `(\d+ (\.\d*)? | \.\d+) ([eE][+-]?\d+)?`. -/
def lexNumber (l : List Char) : Option (PyNum × List Char) :=
  match l with
  | '.' :: rest =>
    let p := rest.span Char.isDigit
    if p.1 = [] then none
    else
      match lexExponent p.2 with
      | some (e, r) => some (mkLiteral [] p.1 e, r)
      | none => none
  | _ =>
    let p := l.span Char.isDigit
    if p.1 = [] then none
    else
      match p.2 with
      | '.' :: rest =>
        let q := rest.span Char.isDigit
        match lexExponent q.2 with
        | some (e, r) => some (mkLiteral p.1 q.1 e, r)
        | none => none
      | rest =>
        match lexExponent rest with
        | some (e, r) => some (mkLiteral p.1 [] e, r)
        | none => none

/-- Whether the first character of the list is a digit. -/
def headIsDigit (l : List Char) : Bool :=
  match l with
  | d :: _ => d.isDigit
  | [] => false

/-- Fuelled tokenizer; every step consumes at least one character. -/
def lexAux : Nat → List Char → Option (List Tok)
  | 0, l => if l = [] then some [] else none
  | _ + 1, [] => some []
  | fuel + 1, c :: cs =>
    if isPyWs c then lexAux fuel cs
    else if c.isDigit ∨ (c = '.' ∧ headIsDigit cs) then
      match lexNumber (c :: cs) with
      | some (v, rest) => (lexAux fuel rest).map (Tok.num v :: ·)
      | none => none
    else if isIdentStart c then
      let p := cs.span isWordChar
      (lexAux fuel p.2).map (Tok.name (String.mk (c :: p.1)) :: ·)
    else if c = '*' then
      match cs with
      | '*' :: rest => (lexAux fuel rest).map (Tok.dstar :: ·)
      | _ => (lexAux fuel cs).map (Tok.star :: ·)
    else if c = '+' then (lexAux fuel cs).map (Tok.plus :: ·)
    else if c = '-' then (lexAux fuel cs).map (Tok.minus :: ·)
    else if c = '/' then (lexAux fuel cs).map (Tok.slash :: ·)
    else if c = '%' then (lexAux fuel cs).map (Tok.percent :: ·)
    else if c = '(' then (lexAux fuel cs).map (Tok.lparen :: ·)
    else if c = ')' then (lexAux fuel cs).map (Tok.rparen :: ·)
    else if c = ',' then (lexAux fuel cs).map (Tok.comma :: ·)
    else if c = '.' then (lexAux fuel cs).map (Tok.dot :: ·)
    else none

/-- Tokenize a string; `none` is a Python `SyntaxError`. -/
def tokenize (l : List Char) : Option (List Tok) :=
  lexAux l.length l

/-! ## Abstract syntax and parser -/

/-- Python expression AST (the subset reachable from the translator). -/
inductive Ast where
  | lit (v : PyNum)
  | name (s : String)
  | attr (obj : Ast) (field : String)
  | call (callee : Ast) (args : List Ast)
  | uplus (a : Ast)
  | uminus (a : Ast)
  | add (a b : Ast)
  | sub (a b : Ast)
  | mul (a b : Ast)
  | div (a b : Ast)
  | mod (a b : Ast)
  | pow (a b : Ast)
  deriving Repr

mutual

/-- `expr := term (('+'|'-') term)*`, left associative. -/
def pExpr : Nat → List Tok → Option (Ast × List Tok)
  | 0, _ => none
  | fuel + 1, ts =>
    match pTerm fuel ts with
    | some (a, ts1) => pExprRest fuel a ts1
    | none => none

/-- Left-associative continuation of additive operators. -/
def pExprRest : Nat → Ast → List Tok → Option (Ast × List Tok)
  | 0, _, _ => none
  | fuel + 1, a, ts =>
    match ts with
    | Tok.plus :: r =>
      match pTerm fuel r with
      | some (b, ts1) => pExprRest fuel (Ast.add a b) ts1
      | none => none
    | Tok.minus :: r =>
      match pTerm fuel r with
      | some (b, ts1) => pExprRest fuel (Ast.sub a b) ts1
      | none => none
    | _ => some (a, ts)

/-- `term := factor (('*'|'/'|'%') factor)*`, left associative. -/
def pTerm : Nat → List Tok → Option (Ast × List Tok)
  | 0, _ => none
  | fuel + 1, ts =>
    match pFactor fuel ts with
    | some (a, ts1) => pTermRest fuel a ts1
    | none => none

/-- Left-associative continuation of multiplicative operators. -/
def pTermRest : Nat → Ast → List Tok → Option (Ast × List Tok)
  | 0, _, _ => none
  | fuel + 1, a, ts =>
    match ts with
    | Tok.star :: r =>
      match pFactor fuel r with
      | some (b, ts1) => pTermRest fuel (Ast.mul a b) ts1
      | none => none
    | Tok.slash :: r =>
      match pFactor fuel r with
      | some (b, ts1) => pTermRest fuel (Ast.div a b) ts1
      | none => none
    | Tok.percent :: r =>
      match pFactor fuel r with
      | some (b, ts1) => pTermRest fuel (Ast.mod a b) ts1
      | none => none
    | _ => some (a, ts)

/-- `factor := ('+'|'-') factor | power` (Python unary precedence). -/
def pFactor : Nat → List Tok → Option (Ast × List Tok)
  | 0, _ => none
  | fuel + 1, ts =>
    match ts with
    | Tok.plus :: r =>
      match pFactor fuel r with
      | some (a, ts1) => some (Ast.uplus a, ts1)
      | none => none
    | Tok.minus :: r =>
      match pFactor fuel r with
      | some (a, ts1) => some (Ast.uminus a, ts1)
      | none => none
    | _ => pPower fuel ts

/-- `power := primary ['**' factor]`, right associative, allowing a
unary sign after `**` exactly as Python does. -/
def pPower : Nat → List Tok → Option (Ast × List Tok)
  | 0, _ => none
  | fuel + 1, ts =>
    match pPrimary fuel ts with
    | some (a, ts1) =>
      match ts1 with
      | Tok.dstar :: r =>
        match pFactor fuel r with
        | some (b, ts2) => some (Ast.pow a b, ts2)
        | none => none
      | _ => some (a, ts1)
    | none => none

/-- `primary := atom trailer*` with trailers `.NAME` and `(args)`. -/
def pPrimary : Nat → List Tok → Option (Ast × List Tok)
  | 0, _ => none
  | fuel + 1, ts =>
    match pAtom fuel ts with
    | some (a, ts1) => pTrailers fuel a ts1
    | none => none

/-- Attribute and call trailers. -/
def pTrailers : Nat → Ast → List Tok → Option (Ast × List Tok)
  | 0, _, _ => none
  | fuel + 1, a, ts =>
    match ts with
    | Tok.dot :: Tok.name f :: r => pTrailers fuel (Ast.attr a f) r
    | Tok.lparen :: Tok.rparen :: r => pTrailers fuel (Ast.call a []) r
    | Tok.lparen :: r =>
      match pArgs fuel r with
      | some (args, Tok.rparen :: r2) => pTrailers fuel (Ast.call a args) r2
      | _ => none
    | _ => some (a, ts)

/-- Comma-separated argument list (at least one argument). -/
def pArgs : Nat → List Tok → Option (List Ast × List Tok)
  | 0, _ => none
  | fuel + 1, ts =>
    match pExpr fuel ts with
    | some (a, Tok.comma :: r) =>
      match pArgs fuel r with
      | some (args, ts2) => some (a :: args, ts2)
      | none => none
    | some (a, ts1) => some ([a], ts1)
    | none => none

/-- `atom := NAME | NUMBER | '(' expr ')'`. -/
def pAtom : Nat → List Tok → Option (Ast × List Tok)
  | 0, _ => none
  | fuel + 1, ts =>
    match ts with
    | Tok.num v :: r => some (Ast.lit v, r)
    | Tok.name s :: r => some (Ast.name s, r)
    | Tok.lparen :: r =>
      match pExpr fuel r with
      | some (a, Tok.rparen :: r2) => some (a, r2)
      | _ => none
    | _ => none

end

/-- Parse a complete token list into an expression; every token must be
consumed.  The fuel `8 * length + 16` dominates the depth of any call
chain of the mutual parser on that token list. -/
def parseToks (ts : List Tok) : Option Ast :=
  match pExpr (8 * ts.length + 16) ts with
  | some (a, []) => some a
  | _ => none

/-- Parse a string as a Python expression (`none` = `SyntaxError`). -/
def parseExpr (l : List Char) : Option Ast :=
  match tokenize l with
  | some ts => parseToks ts
  | none => none

/-! ## Values, exceptions and the restricted evaluator -/

/-- Python exceptions that can arise from evaluating a translated
expression in the restricted namespace.  `tiErr` is the engine's own
`TI84Error`; `synErr` is a Python `SyntaxError` raised by `eval` itself;
`fuelErr` is an artefact of the fuelled interpreter and never occurs for
adequately fuelled calls (the fuel used always dominates the AST depth). -/
inductive PyExc where
  | tiErr (msg : String)
  | nameErr (n : String)
  | zeroDivErr
  | valueErr
  | overflowErr
  | typeErr
  | attrErr
  | synErr
  | fuelErr
  deriving DecidableEq, Repr

/-- The callables reachable through `allowed_names`.  `absF` stands for
both `abs` and `math.fabs` (identical on real values), `lnF` for the
natural logarithm (`ln`, `math.log`), `log10F` for the base-10 logarithm
(`log`, `log10`, `math.log10`), `powF` for the builtin `pow` and
`math.pow`. -/
inductive BFun where
  | sinF | cosF | tanF | asinF | acosF | atanF
  | log10F | sqrtF | factorialF | absF | expF | lnF | powF
  deriving DecidableEq, Repr

/-- Objects a restricted-namespace expression can reference: numbers,
callables, the `math` module object itself, and the empty dict that
`eval`'s globals `{"__builtins__": {}}` bind to the name
`__builtins__` (name lookup falls back to the globals dict, so that
identifier resolves).  The dict's own methods (`keys`, `get`, ...) are
not modelled: any use of the dict ends in an unclassified non-`TI84Error`
exception either way (`TypeError` at the final `float(...)` in the
program, `AttributeError`/`TypeError` here), which `evaluate` maps to
the same `ERROR: SYNTAX` and which escapes `evaluate_function`
unclassified, and no claim reaches them. -/
inductive PyObj where
  | num (v : PyNum)
  | fn (b : BFun)
  | mathMod
  | emptyDict
  deriving DecidableEq, Repr

/-- `math.pi`, the exact value of the IEEE double stored by CPython. -/
def piQ : PyNum := ⟨884279719003555, 281474976710656⟩

/-- `math.e`, the exact value of the IEEE double stored by CPython. -/
def eQ : PyNum := ⟨6121026514868073, 2251799813685248⟩

/-- `sqrt` on exact fractions: exact when the argument is the square of
a rational; otherwise the result is irrational and modelled by the
placeholder 0 (no claim depends on an inexact square root value). -/
def qsqrtApprox (a : PyNum) : PyNum :=
  let n := a.num.toNat
  match (List.range (n + 1)).find? (fun k => k * k = n),
        (List.range (a.den + 1)).find? (fun k => k * k = a.den) with
  | some rn, some rd => ⟨rn, rd⟩
  | _, _ => 0

/-- Python `**` (and `pow`) on float/int values: zero base with a
negative exponent raises `ZeroDivisionError`; integral exponents are
computed exactly; a negative base with a fractional exponent yields a
complex number, which the engine can only consume by failing at
`float(...)`, modelled as an immediate `TypeError`; other fractional
powers are irrational and modelled by the placeholder 0. -/
def qpowPy (a b : PyNum) : Except PyExc PyNum :=
  if a.isZero ∧ b.qlt 0 then .error .zeroDivErr
  else if b.isInt then .ok (a.qpowInt b.trunc)
  else if a.qlt 0 then .error .typeErr
  else .ok 0

/-- Python float `%`: result has the sign of the divisor
(`a - b * floor(a / b)`); zero divisor raises `ZeroDivisionError`. -/
def qmodPy (a b : PyNum) : Except PyExc PyNum :=
  if b.isZero then .error .zeroDivErr
  else .ok (a.qsub (b.qmul (PyNum.ofInt ((a.qdiv b).qfloor))))

/-- Apply a builtin to numeric arguments, reproducing each argument-domain
check of the CPython implementation.  Transcendental results are modelled
by the placeholder 0 (see the file header); a wrong argument count raises
`TypeError`. -/
def applyF : BFun → List PyNum → Except PyExc PyNum
  | .sinF, [_] => .ok 0
  | .cosF, [_] => .ok 0
  | .tanF, [_] => .ok 0
  | .atanF, [_] => .ok 0
  | .asinF, [x] => if (1 : PyNum).qlt x.qabs then .error .valueErr else .ok 0
  | .acosF, [x] => if (1 : PyNum).qlt x.qabs then .error .valueErr else .ok 0
  | .log10F, [x] => if x.qle 0 then .error .valueErr else .ok 0
  | .lnF, [x] => if x.qle 0 then .error .valueErr else .ok 0
  | .expF, [_] => .ok 0
  | .sqrtF, [x] => if x.qlt 0 then .error .valueErr else .ok (qsqrtApprox x)
  | .factorialF, [x] =>
    if ¬ x.isInt then .error .typeErr
    else if x.qlt 0 then .error .valueErr
    else .ok (PyNum.ofInt (Nat.factorial x.trunc.toNat))
  | .absF, [x] => .ok x.qabs
  | .powF, [a, b] => qpowPy a b
  | _, _ => .error .typeErr

/-- Name resolution for the restricted `eval`: first the locals
`allowed_names` (the cached function map, the constants, the `math`
module, the memory binding `M`, and — only for graphing calls — the
sampling variable `x` from `extra_context`), then the globals dict
`{"__builtins__": {}}`, whose single key makes the identifier
`__builtins__` resolve to the empty dict.  Any other name is
unresolvable (`NameError`) because the builtins fallback is that empty
dict; in particular `int` is NOT resolvable. -/
def lookupName (st : Engine) (extra : Option PyNum) (n : String) : Option PyObj :=
  match n with
  | "sin" => some (.fn .sinF)
  | "cos" => some (.fn .cosF)
  | "tan" => some (.fn .tanF)
  | "asin" => some (.fn .asinF)
  | "acos" => some (.fn .acosF)
  | "atan" => some (.fn .atanF)
  | "log10" => some (.fn .log10F)
  | "sqrt" => some (.fn .sqrtF)
  | "factorial" => some (.fn .factorialF)
  | "fabs" => some (.fn .absF)
  | "exp" => some (.fn .expF)
  | "ln" => some (.fn .lnF)
  | "log" => some (.fn .log10F)
  | "abs" => some (.fn .absF)
  | "pow" => some (.fn .powF)
  | "pi" => some (.num piQ)
  | "π" => some (.num piQ)
  | "e" => some (.num eQ)
  | "math" => some .mathMod
  | "M" => some (.num st.memory)
  | "x" => extra.map .num
  | "__builtins__" => some .emptyDict
  | _ => none

/-- Attribute lookup on the `math` module object (only the attributes an
engine expression can meaningfully reach are modelled; any other name is
an `AttributeError`). -/
def mathAttr (n : String) : Except PyExc PyObj :=
  match n with
  | "sin" => .ok (.fn .sinF)
  | "cos" => .ok (.fn .cosF)
  | "tan" => .ok (.fn .tanF)
  | "asin" => .ok (.fn .asinF)
  | "acos" => .ok (.fn .acosF)
  | "atan" => .ok (.fn .atanF)
  | "log10" => .ok (.fn .log10F)
  | "sqrt" => .ok (.fn .sqrtF)
  | "factorial" => .ok (.fn .factorialF)
  | "fabs" => .ok (.fn .absF)
  | "exp" => .ok (.fn .expF)
  | "log" => .ok (.fn .lnF)
  | "pow" => .ok (.fn .powF)
  | "pi" => .ok (.num piQ)
  | "e" => .ok (.num eQ)
  | _ => .error .attrErr

/-- Apply a binary arithmetic operation; non-numeric operands raise
`TypeError` (no other object in the namespace supports arithmetic). -/
def numBin (f : PyNum → PyNum → Except PyExc PyNum) (a b : PyObj) : Except PyExc PyObj :=
  match a, b with
  | .num x, .num y => (f x y).map .num
  | _, _ => .error .typeErr

mutual

/-- Fuelled interpreter for the restricted `eval`.  Operands evaluate
left to right; the callee of a call evaluates before its arguments, and
a non-callable callee raises `TypeError` only after the arguments have
evaluated, as in CPython.  Every recursive call decreases the fuel, so
`fuel` larger than the total number of AST nodes and argument-list cells
always suffices. -/
def evalAst (st : Engine) (extra : Option PyNum) : Nat → Ast → Except PyExc PyObj
  | 0, _ => .error .fuelErr
  | fuel + 1, a =>
    match a with
    | .lit v => .ok (.num v)
    | .name n =>
      match lookupName st extra n with
      | some o => .ok o
      | none => .error (.nameErr n)
    | .attr o f =>
      match evalAst st extra fuel o with
      | .ok .mathMod => mathAttr f
      | .ok _ => .error .attrErr
      | .error e => .error e
    | .call c args =>
      match evalAst st extra fuel c with
      | .ok callee =>
        match evalArgs st extra fuel args with
        | .ok vals =>
          match callee with
          | .fn b => (applyF b vals).map .num
          | _ => .error .typeErr
        | .error e => .error e
      | .error e => .error e
    | .uplus a =>
      match evalAst st extra fuel a with
      | .ok (.num v) => .ok (.num v)
      | .ok _ => .error .typeErr
      | .error e => .error e
    | .uminus a =>
      match evalAst st extra fuel a with
      | .ok (.num v) => .ok (.num v.qneg)
      | .ok _ => .error .typeErr
      | .error e => .error e
    | .add a b => evalWith st extra fuel (fun x y => .ok (x.qadd y)) a b
    | .sub a b => evalWith st extra fuel (fun x y => .ok (x.qsub y)) a b
    | .mul a b => evalWith st extra fuel (fun x y => .ok (x.qmul y)) a b
    | .div a b =>
      evalWith st extra fuel (fun x y => if y.isZero then .error .zeroDivErr else .ok (x.qdiv y)) a b
    | .mod a b => evalWith st extra fuel qmodPy a b
    | .pow a b => evalWith st extra fuel qpowPy a b

/-- Evaluate both operands of a binary node (left first), then combine. -/
def evalWith (st : Engine) (extra : Option PyNum) :
    Nat → (PyNum → PyNum → Except PyExc PyNum) → Ast → Ast → Except PyExc PyObj
  | 0, _, _, _ => .error .fuelErr
  | fuel + 1, f, a, b =>
    match evalAst st extra fuel a with
    | .ok x =>
      match evalAst st extra fuel b with
      | .ok y => numBin f x y
      | .error e => .error e
    | .error e => .error e

/-- Evaluate call arguments left to right; builtin application requires
real-number arguments, anything else raises `TypeError`. -/
def evalArgs (st : Engine) (extra : Option PyNum) : Nat → List Ast → Except PyExc (List PyNum)
  | 0, _ => .error .fuelErr
  | _ + 1, [] => .ok []
  | fuel + 1, a :: rest =>
    match evalAst st extra fuel a with
    | .ok (.num v) =>
      match evalArgs st extra fuel rest with
      | .ok vs => .ok (v :: vs)
      | .error e => .error e
    | .ok _ => .error .typeErr
    | .error e => .error e

end

/-- IEEE double overflow threshold for `float(...)`: any value of
magnitude at least `2 ^ 1024` overflows (written as an explicit numeral
so that it evaluates in one step). -/
def maxFloatBound : PyNum :=
  ⟨179769313486231590772930519078902473361797697894230657273430081157732675805500963132708477322407536021120113879871393357658789768814416622492847430639474124377767893424865485276302219601246094119453082952085005768838150682342462881473913110540827237163350510684586298239947245938479716304835356329624224137216, 1⟩

/-- The final `float(result)` coercion of `_safe_eval`: a numeric result
passes through (exactly, in this model), a huge integer raises
`OverflowError`, and a non-numeric object raises `TypeError`. -/
def floatCoerce (o : PyObj) : Except PyExc PyNum :=
  match o with
  | .num v => if maxFloatBound.qle v.qabs then .error .overflowErr else .ok v
  | _ => .error .typeErr

/-- `TI84Engine._safe_eval`: parse and evaluate the translated text in
the restricted namespace; only `NameError` is converted to
`TI84Error("ERROR: SYNTAX")`, every other exception propagates; the
result is coerced with `float(...)`.  The interpreter fuel
`2 * length + 2` strictly dominates the fuel any AST parsed from the
string can consume (each node and argument cell consumes at least one
character, and each node costs at most two fuel steps). -/
def safeEval (st : Engine) (extra : Option PyNum) (s : String) : Except PyExc PyNum :=
  match parseExpr s.toList with
  | none => .error .synErr
  | some ast =>
    match evalAst st extra (2 * s.length + 2) ast with
    | .error (.nameErr _) => .error (.tiErr syntaxMsg)
    | .error e => .error e
    | .ok obj => floatCoerce obj

/-! ## Result formatting (`TI84Engine._format_result`) -/

/-- Decimal digit character. -/
def digitChar (d : Nat) : Char := Char.ofNat ('0'.toNat + d)

/-- Fuelled most-significant-first decimal digits of a natural number
(`fuel ≥ n` always suffices; empty for zero). -/
def natDigitsAux : Nat → Nat → List Char
  | 0, _ => []
  | _ + 1, 0 => []
  | fuel + 1, n => natDigitsAux fuel (n / 10) ++ [digitChar (n % 10)]

/-- Decimal digits of `n` (most significant first, `['0']` for zero). -/
def natDigits (n : Nat) : List Char :=
  if n = 0 then ['0'] else natDigitsAux (n + 1) n

/-- Python `str` of a natural number. -/
def natStr (n : Nat) : String := String.mk (natDigits n)

/-- Python `str(int(...))`. -/
def intStr (i : Int) : String :=
  if i < 0 then "-" ++ natStr i.natAbs else natStr i.natAbs

/-- Bounded search for the smallest `k` (starting from the given `k`)
with `a * 10 ^ k ≥ 1`. -/
def qScaleSearch (a : PyNum) : Nat → Nat → Nat
  | 0, k => k
  | f + 1, k =>
    if (1 : PyNum).qle (a.qmul (pow10 (k : Int))) then k else qScaleSearch a f (k + 1)

/-- The decimal exponent of a positive fraction: the unique `e` with
`10 ^ e ≤ a < 10 ^ (e + 1)`.  For `a < 1` the scaling search is bounded
by the number of digits of the denominator. -/
def qExp10 (a : PyNum) : Int :=
  if (1 : PyNum).qle a then ((natDigits a.qfloor.toNat).length : Int) - 1
  else -((qScaleSearch a ((natDigits a.den).length + 1) 1 : Nat) : Int)

/-- Round a non-negative fraction to the nearest integer, ties to even
(the rounding CPython's `%g` formatting performs on the decimal
significand). -/
def roundHalfEven (x : PyNum) : Nat :=
  let n := x.qfloor
  let frac := x.qsub (PyNum.ofInt n)
  let half : PyNum := ⟨1, 2⟩
  if frac.qlt half then n.toNat
  else if half.qlt frac then n.toNat + 1
  else if n % 2 = 0 then n.toNat else n.toNat + 1

/-- Drop trailing `'0'` characters. -/
def stripZeros (l : List Char) : List Char :=
  (l.reverse.dropWhile (· = '0')).reverse

/-- The rounded 10-digit decimal significand and adjusted exponent of a
positive fraction: a carry in the rounding can push the significand to
`10 ^ 10`, bumping the exponent. -/
def g10mantExp (a : PyNum) : Nat × Int :=
  if roundHalfEven (a.qmul (pow10 (9 - qExp10 a))) = 10000000000 then
    (1000000000, qExp10 a + 1)
  else
    (roundHalfEven (a.qmul (pow10 (9 - qExp10 a))), qExp10 a)

/-- The scientific-notation mantissa: leading digit, then the remaining
digits with trailing zeros stripped. -/
def g10mant (digits : List Char) : List Char :=
  match digits with
  | d :: rest => d :: (if stripZeros rest = [] then [] else '.' :: stripZeros rest)
  | [] => ['0']

/-- Render a 10-digit significand at decimal exponent `e` the way `%g`
does: fixed notation for exponents in `[-4, 10)`, scientific notation
with a signed two-digit-minimum exponent otherwise. -/
def g10render (sign : List Char) (digits : List Char) (e : Int) : List Char :=
  if -4 ≤ e ∧ e < 10 then
    if 0 ≤ e then
      sign ++ digits.take (e.toNat + 1) ++
        (if stripZeros (digits.drop (e.toNat + 1)) = [] then []
         else '.' :: stripZeros (digits.drop (e.toNat + 1)))
    else
      sign ++ ['0', '.'] ++ List.replicate (e.natAbs - 1) '0' ++ stripZeros digits
  else
    sign ++ g10mant digits ++ ['e'] ++ (if e < 0 then ['-'] else ['+']) ++
      (if e.natAbs < 10 then '0' :: natDigits e.natAbs else natDigits e.natAbs)

/-- CPython `f"{v:.10g}"` on the exact value: round to 10 significant
decimal digits (ties to even), strip trailing zeros, and use scientific
notation with a signed two-digit exponent when the decimal exponent is
below -4 or at least 10.  (CPython rounds the binary double; on the
values reached by the claims the two agree.) -/
def g10 (v : PyNum) : String :=
  if v.isZero then "0"
  else
    String.mk (g10render (if v.num < 0 then ['-'] else [])
      (natDigits (g10mantExp v.qabs).1) (g10mantExp v.qabs).2)

/-- Threshold `1e-10` (the snap-to-zero bound). -/
def tinyBound : PyNum := ⟨1, 10000000000⟩

/-- Threshold `1e4` (the integer-rendering bound). -/
def intBound : PyNum := ⟨10000, 1⟩

/-- The snap-to-zero step of `_format_result`. -/
def snapTiny (value : PyNum) : PyNum :=
  if value.qabs.qlt tinyBound then (0 : PyNum) else value

/-- `TI84Engine._format_result`: snap values below `1e-10` in magnitude
to zero, render integral values below `1e4` in magnitude as plain
integers, everything else with `%.10g`. -/
def formatResult (value : PyNum) : String :=
  if (snapTiny value).qabs.qlt intBound ∧ (snapTiny value).isInt then
    intStr (snapTiny value).trunc
  else g10 (snapTiny value)

/-! ## The public evaluation entry points -/

/-- `TI84Engine.evaluate`: translate, evaluate, classify failures as the
TI-84 error messages, format, append to history.  The updated engine
state is returned alongside the outcome; on any failure the state is the
input state. -/
def evaluate (st : Engine) (expression : String) : Except String EvaluationResult × Engine :=
  match prepareExpression st expression with
  | .error msg => (.error msg, st)
  | .ok cleaned =>
    match safeEval st none cleaned with
    | .error .zeroDivErr => (.error divMsg, st)
    | .error .valueErr => (.error mathMsg, st)
    | .error .overflowErr => (.error overflowMsg, st)
    | .error _ => (.error syntaxMsg, st)
    | .ok v =>
      let s := formatResult v
      (.ok ⟨expression, s⟩, appendHistory st ⟨expression, s⟩)

/-- `TI84Engine.evaluate_function`: translate and evaluate with the
sampling variable bound; a `TI84Error` raised by the translator
propagates as such, and `_safe_eval` failures propagate unclassified. -/
def evaluateFunction (st : Engine) (expression : String) (x : PyNum) : Except PyExc PyNum :=
  match prepareExpression st expression with
  | .error msg => .error (.tiErr msg)
  | .ok cleaned => safeEval st (some x) cleaned

/-! ## Graphing (`graphing_engine.py`) -/

/-- `GraphWindow` dataclass. -/
structure GraphWindow where
  xmin : PyNum
  xmax : PyNum
  ymin : PyNum
  ymax : PyNum
  deriving DecidableEq, Repr

/-- The default window `(-10, 10, -10, 10)`. -/
def defaultWindow : GraphWindow := ⟨⟨-10, 1⟩, 10, ⟨-10, 1⟩, 10⟩

/-- The state of a `GraphingEngine`: the calculator it delegates to, the
equation slots (a Python dict, modelled as an association list in
insertion order), and the window. -/
structure Graphing where
  calculator : Engine
  equations : List (String × String)
  window : GraphWindow
  deriving DecidableEq, Repr

/-- A fresh graphing engine over a calculator. -/
def initGraphing (c : Engine) : Graphing := ⟨c, [], defaultWindow⟩

/-- Python dict assignment `d[k] = v`: replace the value of an existing
key in place, otherwise append the new pair. -/
def dictInsert (l : List (String × String)) (k v : String) : List (String × String) :=
  match l with
  | [] => [(k, v)]
  | (k', v') :: t => if k' = k then (k, v) :: t else (k', v') :: dictInsert t k v

/-- Python `d.pop(k, None)`: remove the entry for `k` when present,
otherwise do nothing (never an error). -/
def dictPop (l : List (String × String)) (k : String) : List (String × String) :=
  match l with
  | [] => []
  | (k', v') :: t => if k' = k then t else (k', v') :: dictPop t k

/-- Python `dict.get`-style lookup. -/
def dictLookup (l : List (String × String)) (k : String) : Option String :=
  match l with
  | [] => none
  | (k', v') :: t => if k' = k then some v' else dictLookup t k

/-- `GraphingEngine.set_equation`: store the stripped expression, or
clear the slot when the stripped expression is empty. -/
def setEquation (g : Graphing) (label expression : String) : Graphing :=
  let clean := pyStrip expression.toList
  if clean ≠ [] then
    { g with equations := dictInsert g.equations label (String.mk clean) }
  else
    { g with equations := dictPop g.equations label }

/-- `GraphingEngine.set_window`: reject non-increasing bounds with
`TI84Error("ERROR: WINDOW")` (leaving the window unchanged), otherwise
store the new window. -/
def setWindow (g : Graphing) (xmin xmax ymin ymax : PyNum) :
    Except String Unit × Graphing :=
  if xmax.qle xmin ∨ ymax.qle ymin then (.error windowMsg, g)
  else (.ok (), { g with window := ⟨xmin, xmax, ymin, ymax⟩ })

/-- `GraphingEngine._evaluate_series`: evaluate the expression at each
sample; a `TI84Error` becomes a not-a-number entry (`none`) at that
index, while any other exception escapes the loop and aborts the whole
series, discarding it. -/
def evaluateSeries (g : Graphing) (expression : String) :
    List PyNum → Except PyExc (List (Option PyNum))
  | [] => .ok []
  | x :: rest =>
    match evaluateFunction g.calculator expression x with
    | .ok v => (evaluateSeries g expression rest).map (some v :: ·)
    | .error (.tiErr _) => (evaluateSeries g expression rest).map (none :: ·)
    | .error e => .error e

/-! ## Helper lemmas -/

/-- Strict order on fraction values refutes the reverse weak order. -/
theorem qle_eq_false_of_qlt {a b : PyNum} (h : a.qlt b = true) : b.qle a = false := by
  simp only [PyNum.qlt, decide_eq_true_eq] at h
  simp only [PyNum.qle, decide_eq_false_iff_not]
  omega

/-- `dictPop` is the identity when the key is absent. -/
theorem dictPop_of_lookup_none {l : List (String × String)} {k : String}
    (h : dictLookup l k = none) : dictPop l k = l := by
  induction l with
  | nil => rfl
  | cons kv t ih =>
    obtain ⟨k', v'⟩ := kv
    by_cases hk : k' = k
    · simp [dictLookup, hk] at h
    · simp only [dictLookup, hk, if_false] at h
      simp [dictPop, hk, ih h]

/-- An absent key looks up to nothing. -/
theorem dictLookup_eq_none_of_not_mem {l : List (String × String)} {k : String}
    (h : k ∉ l.map Prod.fst) : dictLookup l k = none := by
  induction l with
  | nil => rfl
  | cons kv t ih =>
    obtain ⟨k', v'⟩ := kv
    simp only [List.map_cons, List.mem_cons, not_or] at h
    have hk : k' ≠ k := fun hc => h.1 hc.symm
    simp [dictLookup, hk, ih h.2]

/-- After `dictPop` on a dict with pairwise-distinct keys, the key is gone. -/
theorem dictLookup_dictPop_none {l : List (String × String)} {k : String}
    (h : (l.map Prod.fst).Nodup) : dictLookup (dictPop l k) k = none := by
  induction l with
  | nil => rfl
  | cons kv t ih =>
    obtain ⟨k', v'⟩ := kv
    simp only [List.map_cons, List.nodup_cons] at h
    by_cases hk : k' = k
    · subst hk
      simp only [dictPop, if_true]
      exact dictLookup_eq_none_of_not_mem h.1
    · simp [dictPop, hk, dictLookup, ih h.2]

/-- `dictInsert` stores the new value under the key. -/
theorem dictLookup_dictInsert {l : List (String × String)} {k v : String} :
    dictLookup (dictInsert l k v) k = some v := by
  induction l with
  | nil => simp [dictInsert, dictLookup]
  | cons kv t ih =>
    obtain ⟨k', v'⟩ := kv
    by_cases hk : k' = k
    · simp [dictInsert, hk, dictLookup]
    · simp [dictInsert, hk, dictLookup, ih]

/-- Every entry after `dictInsert` is an old entry or the new pair. -/
theorem mem_dictInsert {l : List (String × String)} {k v : String} {kv : String × String}
    (h : kv ∈ dictInsert l k v) : kv ∈ l ∨ kv = (k, v) := by
  induction l with
  | nil => simpa [dictInsert] using h
  | cons kv' t ih =>
    obtain ⟨k', v'⟩ := kv'
    by_cases hk : k' = k
    · simp only [dictInsert, hk, if_true, List.mem_cons] at h
      rcases h with h | h
      · exact Or.inr h
      · exact Or.inl (List.mem_cons_of_mem _ h)
    · simp only [dictInsert, hk, if_false, List.mem_cons] at h
      rcases h with h | h
      · exact Or.inl (List.mem_cons.mpr (Or.inl h))
      · rcases ih h with h2 | h2
        · exact Or.inl (List.mem_cons_of_mem _ h2)
        · exact Or.inr h2

/-- Every entry after `dictPop` is an old entry. -/
theorem mem_dictPop {l : List (String × String)} {k : String} {kv : String × String}
    (h : kv ∈ dictPop l k) : kv ∈ l := by
  induction l with
  | nil => simp [dictPop] at h
  | cons kv' t ih =>
    obtain ⟨k', v'⟩ := kv'
    by_cases hk : k' = k
    · simp only [dictPop, hk, if_true] at h
      exact List.mem_cons_of_mem _ h
    · simp only [dictPop, hk, if_false, List.mem_cons] at h
      rcases h with h | h
      · exact List.mem_cons.mpr (Or.inl h)
      · exact List.mem_cons_of_mem _ (ih h)

/-- The last `n` elements of a list (all of it when `n ≥ length`). -/
def takeLastN {α : Type} (n : Nat) (l : List α) : List α :=
  l.drop (l.length - n)

/-- `takeLastN` keeps at most `n` elements. -/
theorem length_takeLastN {α : Type} (n : Nat) (l : List α) :
    (takeLastN n l).length ≤ n := by
  simp only [takeLastN, List.length_drop]
  omega

/-- `takeLastN` is the identity on short lists. -/
theorem takeLastN_of_le {α : Type} {n : Nat} {l : List α} (h : l.length ≤ n) :
    takeLastN n l = l := by
  simp only [takeLastN]
  rw [show l.length - n = 0 by omega]
  exact List.drop_zero l

/-- Truncating a list, extending it, and truncating again is the same as
truncating the extended list. -/
theorem takeLastN_takeLastN_append {α : Type} (L : Nat) (a b : List α) :
    takeLastN L (takeLastN L a ++ b) = takeLastN L (a ++ b) := by
  by_cases hL : L ≤ a.length
  · simp only [takeLastN, List.length_append, List.length_drop,
      List.drop_append_eq_append_drop, List.drop_drop]
    congr 1
    · congr 1
      omega
    · congr 1
      omega
  · rw [takeLastN_of_le (by omega : a.length ≤ L)]

/-- Appending the whole sequence: `history` after a run of
`_append_history` calls. -/
def appendAll (st : Engine) (rs : List EvaluationResult) : Engine :=
  rs.foldl appendHistory st

/-- One `_append_history` step under a positive capacity: the new ledger
is the suffix of the extended ledger, and the configuration fields are
untouched. -/
theorem appendHistory_step (st : Engine) (e : EvaluationResult)
    (h1 : 1 ≤ st.historyLimit) :
    (appendHistory st e).history = takeLastN st.historyLimit (st.history ++ [e]) ∧
    (appendHistory st e).historyLimit = st.historyLimit := by
  have hlen : (st.history ++ [e]).length = st.history.length + 1 := by simp
  unfold appendHistory pyLastSlice
  by_cases hc : (st.history ++ [e]).length > st.historyLimit
  · have hne : st.historyLimit ≠ 0 := by omega
    rw [if_pos hc, if_neg hne]
    exact ⟨by simp [takeLastN], rfl⟩
  · rw [if_neg hc]
    refine ⟨(takeLastN_of_le ?_).symm, rfl⟩
    show (st.history ++ [e]).length ≤ st.historyLimit
    omega

/-- Folded form: after any run of appends from a state within capacity,
the ledger is exactly the capacity-suffix of the concatenation. -/
theorem appendAll_history (rs : List EvaluationResult) :
    ∀ st : Engine, 1 ≤ st.historyLimit → st.history.length ≤ st.historyLimit →
      (appendAll st rs).history = takeLastN st.historyLimit (st.history ++ rs) ∧
      (appendAll st rs).historyLimit = st.historyLimit := by
  induction rs with
  | nil =>
    intro st h1 h2
    simp only [appendAll, List.foldl_nil, List.append_nil]
    exact ⟨(takeLastN_of_le h2).symm, trivial⟩
  | cons e rest ih =>
    intro st h1 h2
    have hstep := appendHistory_step st e h1
    have h1' : 1 ≤ (appendHistory st e).historyLimit := by rw [hstep.2]; exact h1
    have h2' : (appendHistory st e).history.length ≤ (appendHistory st e).historyLimit := by
      rw [hstep.1, hstep.2]
      exact length_takeLastN _ _
    have hrec := ih (appendHistory st e) h1' h2'
    constructor
    · have : (appendAll st (e :: rest)).history = (appendAll (appendHistory st e) rest).history :=
        rfl
      rw [this, hrec.1, hstep.1, hstep.2, takeLastN_takeLastN_append]
      congr 1
      simp
    · have : (appendAll st (e :: rest)).historyLimit =
        (appendAll (appendHistory st e) rest).historyLimit := rfl
      rw [this, hrec.2, hstep.2]

/-- C5 counterexample: with `history_limit = 0`, the Python slice
`history[-0:]` keeps the whole list, so a single append leaves the
ledger one entry long — exceeding the configured capacity 0. -/
theorem history_limit_zero_counterexample :
    ¬ ((appendHistory { historyLimit := 0, memory := 0, history := [] }
        ⟨"1+1", "2"⟩).history.length ≤
       (appendHistory { historyLimit := 0, memory := 0, history := [] }
        ⟨"1+1", "2"⟩).historyLimit) := by
  decide

/-- C5 (amended): for a positive capacity, starting from any state
within capacity, the ledger never exceeds the capacity, and once at
least `capacity` results have been appended (`capacity + k` appends) the
ledger is exactly the most recent `capacity` results in insertion
order. -/
theorem history_capacity (st : Engine) (rs : List EvaluationResult)
    (h1 : 1 ≤ st.historyLimit) (h2 : st.history.length ≤ st.historyLimit) :
    (appendAll st rs).history.length ≤ st.historyLimit ∧
    (st.historyLimit ≤ rs.length →
      (appendAll st rs).history = takeLastN st.historyLimit rs) := by
  have hmain := appendAll_history rs st h1 h2
  constructor
  · rw [hmain.1]
    exact length_takeLastN _ _
  · intro hlen
    rw [hmain.1]
    simp only [takeLastN, List.length_append, List.drop_append_eq_append_drop]
    rw [List.drop_eq_nil_of_le (by omega : st.history.length ≤
      st.history.length + rs.length - st.historyLimit)]
    rw [List.nil_append]
    congr 1
    omega

/-- C5 witness: a capacity-2 engine receiving three results keeps
exactly the last two, in order. -/
theorem history_capacity_witness :
    (appendAll { historyLimit := 2, memory := 0, history := [] }
      [⟨"1", "1"⟩, ⟨"2", "2"⟩, ⟨"3", "3"⟩]).history.length ≤ 2 ∧
    (appendAll { historyLimit := 2, memory := 0, history := [] }
      [⟨"1", "1"⟩, ⟨"2", "2"⟩, ⟨"3", "3"⟩]).history =
      takeLastN 2 [⟨"1", "1"⟩, ⟨"2", "2"⟩, ⟨"3", "3"⟩] :=
  ⟨(history_capacity { historyLimit := 2, memory := 0, history := [] }
      [⟨"1", "1"⟩, ⟨"2", "2"⟩, ⟨"3", "3"⟩] (by decide) (by decide)).1,
   (history_capacity { historyLimit := 2, memory := 0, history := [] }
      [⟨"1", "1"⟩, ⟨"2", "2"⟩, ⟨"3", "3"⟩] (by decide) (by decide)).2 (by decide)⟩

/-! ## Lemmas about the textual replacement pass -/

/-- Characters of a replacement result come from the input or from the
replacement text. -/
theorem mem_replaceAux {pat rep : List Char} :
    ∀ {fuel : Nat} {l : List Char} {x : Char},
      x ∈ replaceAux pat rep fuel l → x ∈ l ∨ x ∈ rep := by
  intro fuel
  induction fuel with
  | zero => intro l x h; exact Or.inl h
  | succ f ih =>
    intro l x h
    cases l with
    | nil => simp [replaceAux] at h
    | cons c cs =>
      by_cases hp : pat.isPrefixOf (c :: cs)
      · rw [replaceAux, if_pos hp] at h
        rcases List.mem_append.mp h with h2 | h2
        · exact Or.inr h2
        · rcases ih h2 with h3 | h3
          · exact Or.inl (List.drop_subset _ _ h3)
          · exact Or.inr h3
      · rw [replaceAux, if_neg hp] at h
        rcases List.mem_cons.mp h with h2 | h2
        · exact Or.inl (by simp [h2])
        · rcases ih h2 with h3 | h3
          · exact Or.inl (List.mem_cons_of_mem _ h3)
          · exact Or.inr h3

/-- Replacing a single character eliminates it entirely, provided the
replacement text does not contain it and the fuel covers the input. -/
theorem not_mem_replaceAux_single {p : Char} {rep : List Char} (hrep : p ∉ rep) :
    ∀ {fuel : Nat} {l : List Char}, l.length ≤ fuel → p ∉ replaceAux [p] rep fuel l := by
  intro fuel
  induction fuel with
  | zero =>
    intro l hl
    rw [List.length_eq_zero.mp (by omega : l.length = 0)]
    simp [replaceAux]
  | succ f ih =>
    intro l hl h
    cases l with
    | nil => simp [replaceAux] at h
    | cons c cs =>
      by_cases hp : [p].isPrefixOf (c :: cs)
      · rw [replaceAux, if_pos hp] at h
        rcases List.mem_append.mp h with h2 | h2
        · exact hrep h2
        · have hcs : (List.drop 1 (c :: cs)).length ≤ f := by
            simp only [List.length_cons] at hl
            simp only [List.length_drop, List.length_cons]
            omega
          exact ih hcs h2
      · have hpc : p ≠ c := by
          intro hc
          apply hp
          subst hc
          simp [List.isPrefixOf]
        rw [replaceAux, if_neg hp] at h
        rcases List.mem_cons.mp h with h2 | h2
        · exact hpc h2
        · have hcs : cs.length ≤ f := by
            simp only [List.length_cons] at hl
            omega
          exact ih hcs h2

/-- A replacement whose pattern head never occurs is the identity. -/
theorem replaceAux_of_head_not_mem {p : Char} {ps rep : List Char} :
    ∀ {fuel : Nat} {l : List Char}, p ∉ l → replaceAux (p :: ps) rep fuel l = l := by
  intro fuel
  induction fuel with
  | zero => intro l _; rfl
  | succ f ih =>
    intro l hnm
    cases l with
    | nil => rfl
    | cons c cs =>
      have hpc : ¬ (p :: ps).isPrefixOf (c :: cs) := by
        intro hc
        apply hnm
        have : p = c := by
          have := (List.isPrefixOf_iff_prefix.mp hc)
          rcases this with ⟨t, ht⟩
          exact (List.cons_eq_cons.mp (by simpa using ht)).1
        simp [this]
      rw [replaceAux, if_neg hpc]
      have hcs : p ∉ cs := fun hx => hnm (List.mem_cons_of_mem _ hx)
      rw [ih hcs]

/-- Elements of the first span component come from the list. -/
theorem mem_span_fst {p : Char → Bool} {l : List Char} {x : Char}
    (h : x ∈ (l.span p).1) : x ∈ l := by
  rw [List.span_eq_take_drop] at h
  exact (List.takeWhile_prefix p).sublist.subset h

/-- Elements of the second span component come from the list. -/
theorem mem_span_snd {p : Char → Bool} {l : List Char} {x : Char}
    (h : x ∈ (l.span p).2) : x ∈ l := by
  rw [List.span_eq_take_drop] at h
  exact (List.dropWhile_suffix p).sublist.subset h

/-- A successful `bangSplit` means the input starts with `'!'`. -/
theorem bangSplit_eq_some {l r : List Char} (h : bangSplit l = some r) :
    '!' ∈ l ∧ ∀ x ∈ r, x ∈ l := by
  unfold bangSplit at h
  split at h
  · rename_i r2 heq
    simp only [Option.some.injEq] at h
    subst h
    constructor
    · simp
    · intro x hx
      exact List.mem_cons_of_mem _ hx
  · simp at h

/-- A successful `closeParen` means the input starts with `')'`. -/
theorem closeParen_eq_some {l r : List Char} (h : closeParen l = some r) :
    ')' ∈ l ∧ ∀ x ∈ r, x ∈ l := by
  unfold closeParen at h
  split at h
  · rename_i r2 heq
    simp only [Option.some.injEq] at h
    subst h
    constructor
    · simp
    · intro x hx
      exact List.mem_cons_of_mem _ hx
  · simp at h

/-- A successful `dotDigitSplit` decomposes the input. -/
theorem dotDigitSplit_eq_some {l r : List Char} {d : Char}
    (h : dotDigitSplit l = some (d, r)) :
    '.' ∈ l ∧ d ∈ l ∧ ∀ x ∈ r, x ∈ l := by
  unfold dotDigitSplit at h
  split at h
  · rename_i d2 r2 heq
    split at h
    · simp only [Option.some.injEq, Prod.mk.injEq] at h
      obtain ⟨hd, hr⟩ := h
      subst hd
      subst hr
      refine ⟨by simp, by simp, fun x hx => ?_⟩
      exact List.mem_cons_of_mem _ (List.mem_cons_of_mem _ hx)
    · simp at h
  · simp at h

/-- A successful factorial-regex match only uses characters of the
input: the target and the remainder are built from input characters,
and the input must contain a `'!'`. -/
theorem factMatch_some_sub {prev : Option Char} {l t rest : List Char}
    (h : factMatch prev l = some (t, rest)) :
    (∀ x ∈ t, x ∈ l) ∧ (∀ x ∈ rest, x ∈ l) ∧ '!' ∈ l := by
  cases l with
  | nil => simp [factMatch] at h
  | cons c cs =>
    rw [factMatch] at h
    by_cases h1 : c = '('
    · rw [if_pos h1] at h
      split at h
      · rename_i r2 hcp
        split at h
        · rename_i rest2 hbs
          simp only [Option.some.injEq, Prod.mk.injEq] at h
          obtain ⟨ht, hrest⟩ := h
          subst ht
          subst hrest
          have hsnd : ∀ x ∈ (cs.span fun d => ¬ (d = '(' ∨ d = ')')).2, x ∈ cs :=
            fun x hx => mem_span_snd hx
          have hcp2 := closeParen_eq_some hcp
          have hbs2 := bangSplit_eq_some hbs
          have hbang : '!' ∈ cs := hsnd _ (hcp2.2 _ hbs2.1)
          refine ⟨?_, ?_, List.mem_cons_of_mem _ hbang⟩
          · intro x hx
            rcases List.mem_cons.mp hx with hx | hx
            · subst hx; subst h1; simp
            · rcases List.mem_append.mp hx with hx | hx
              · exact List.mem_cons_of_mem _ (mem_span_fst hx)
              · have hx2 : x = ')' := by simpa using hx
                subst hx2
                exact List.mem_cons_of_mem _ (hsnd _ hcp2.1)
          · intro x hx
            exact List.mem_cons_of_mem _ (hsnd _ (hcp2.2 _ (hbs2.2 _ hx)))
        · simp at h
      · simp at h
    · rw [if_neg h1] at h
      by_cases h2 : isIdentStart c ∧ atBoundary prev
      · rw [if_pos h2] at h
        split at h
        · rename_i rest2 hbs
          simp only [Option.some.injEq, Prod.mk.injEq] at h
          obtain ⟨ht, hrest⟩ := h
          subst ht
          subst hrest
          have hsnd : ∀ x ∈ (cs.span isWordChar).2, x ∈ cs := fun x hx => mem_span_snd hx
          have hbs2 := bangSplit_eq_some hbs
          have hbang : '!' ∈ cs := hsnd _ hbs2.1
          refine ⟨?_, ?_, List.mem_cons_of_mem _ hbang⟩
          · intro x hx
            rcases List.mem_cons.mp hx with hx | hx
            · subst hx; simp
            · exact List.mem_cons_of_mem _ (mem_span_fst hx)
          · intro x hx
            exact List.mem_cons_of_mem _ (hsnd _ (hbs2.2 _ hx))
        · simp at h
      · rw [if_neg h2] at h
        by_cases h3 : c.isDigit
        · rw [if_pos h3] at h
          have hsnd : ∀ x ∈ (cs.span Char.isDigit).2, x ∈ cs := fun x hx => mem_span_snd hx
          split at h
          · rename_i rest2 hbs
            simp only [Option.some.injEq, Prod.mk.injEq] at h
            obtain ⟨ht, hrest⟩ := h
            subst ht
            subst hrest
            have hbs2 := bangSplit_eq_some hbs
            have hbang : '!' ∈ cs := hsnd _ hbs2.1
            refine ⟨?_, ?_, List.mem_cons_of_mem _ hbang⟩
            · intro x hx
              rcases List.mem_cons.mp hx with hx | hx
              · subst hx; simp
              · exact List.mem_cons_of_mem _ (mem_span_fst hx)
            · intro x hx
              exact List.mem_cons_of_mem _ (hsnd _ (hbs2.2 _ hx))
          · rename_i hbs
            split at h
            · rename_i d rest2 hdd
              split at h
              · rename_i rest3 hbs2
                simp only [Option.some.injEq, Prod.mk.injEq] at h
                obtain ⟨ht, hrest⟩ := h
                subst ht
                subst hrest
                have hdd2 := dotDigitSplit_eq_some hdd
                have hbs3 := bangSplit_eq_some hbs2
                have hsub2 : ∀ x ∈ rest2, x ∈ cs := fun x hx => hsnd _ (hdd2.2.2 _ hx)
                have hsndq : ∀ x ∈ (rest2.span Char.isDigit).2, x ∈ cs :=
                  fun x hx => hsub2 _ (mem_span_snd hx)
                have hfstq : ∀ x ∈ (rest2.span Char.isDigit).1, x ∈ cs :=
                  fun x hx => hsub2 _ (mem_span_fst hx)
                have hbang : '!' ∈ cs := hsndq _ hbs3.1
                refine ⟨?_, ?_, List.mem_cons_of_mem _ hbang⟩
                · intro x hx
                  rcases List.mem_cons.mp hx with hx | hx
                  · subst hx; simp
                  · rcases List.mem_append.mp hx with hx | hx
                    · exact List.mem_cons_of_mem _ (mem_span_fst hx)
                    · rcases List.mem_cons.mp hx with hx | hx
                      · subst hx
                        exact List.mem_cons_of_mem _ (hsnd _ hdd2.1)
                      · rcases List.mem_cons.mp hx with hx | hx
                        · subst hx
                          exact List.mem_cons_of_mem _ (hsnd _ hdd2.2.1)
                        · exact List.mem_cons_of_mem _ (hfstq _ hx)
                · intro x hx
                  exact List.mem_cons_of_mem _ (hsndq _ (hbs3.2 _ hx))
              · simp at h
            · simp at h
        · rw [if_neg h3] at h
          simp at h

/-- If the input contains no `'!'`, the factorial regex cannot match. -/
theorem factMatch_eq_none {prev : Option Char} {l : List Char} (h : '!' ∉ l) :
    factMatch prev l = none := by
  cases hm : factMatch prev l with
  | none => rfl
  | some tr =>
    obtain ⟨t, rest⟩ := tr
    exact absurd (factMatch_some_sub hm).2.2 h

/-- The factorial substitution is the identity on `'!'`-free input. -/
theorem factSubAux_eq_self :
    ∀ {fuel : Nat} {prev : Option Char} {l : List Char}, '!' ∉ l →
      factSubAux fuel prev l = l := by
  intro fuel
  induction fuel with
  | zero => intro prev l _; rfl
  | succ f ih =>
    intro prev l h
    cases l with
    | nil => rfl
    | cons c cs =>
      rw [factSubAux, factMatch_eq_none h]
      have hcs : '!' ∉ cs := fun hx => h (List.mem_cons_of_mem _ hx)
      rw [ih hcs]

/-- The characters that can appear in a factorial-substitution output:
input characters and the characters of the wrapper text. -/
def wrapChars : List Char := "math.factorial(int())".toList

/-- Characters of the factorial substitution come from the input or the
wrapper. -/
theorem mem_factSubAux :
    ∀ {fuel : Nat} {prev : Option Char} {l : List Char} {x : Char},
      x ∈ factSubAux fuel prev l → x ∈ l ∨ x ∈ wrapChars := by
  intro fuel
  induction fuel with
  | zero => intro prev l x h; exact Or.inl h
  | succ f ih =>
    intro prev l x h
    cases l with
    | nil => simp [factSubAux] at h
    | cons c cs =>
      rw [factSubAux] at h
      cases hm : factMatch prev (c :: cs) with
      | some tr =>
        obtain ⟨t, rest⟩ := tr
        rw [hm] at h
        simp only [factWrap] at h
        have hw1 : ∀ y ∈ "math.factorial(int(".toList, y ∈ wrapChars := by decide
        have hw2 : ∀ y ∈ "))".toList, y ∈ wrapChars := by decide
        rcases List.mem_append.mp h with h2 | h2
        · rcases List.mem_append.mp h2 with h3 | h3
          · rcases List.mem_append.mp h3 with h4 | h4
            · exact Or.inr (hw1 x h4)
            · exact Or.inl ((factMatch_some_sub hm).1 x h4)
          · exact Or.inr (hw2 x h3)
        · rcases ih h2 with h3 | h3
          · exact Or.inl ((factMatch_some_sub hm).2.1 x h3)
          · exact Or.inr h3
      | none =>
        rw [hm] at h
        rcases List.mem_cons.mp h with h2 | h2
        · exact Or.inl (by simp [h2])
        · rcases ih h2 with h3 | h3
          · exact Or.inl (List.mem_cons_of_mem _ h3)
          · exact Or.inr h3

/-! ## Claim theorems -/

/-- C7: `set_window` with non-increasing bounds (`xmin ≥ xmax` or
`ymin ≥ ymax`) fails with the `ERROR: WINDOW` error and leaves the whole
graphing state unchanged; with strictly increasing bounds it succeeds
and stores exactly the supplied window. -/
theorem setWindow_spec (g : Graphing) (a b c d : PyNum) :
    ((b.qle a ∨ d.qle c) → setWindow g a b c d = (.error windowMsg, g)) ∧
    ((a.qlt b ∧ c.qlt d) →
      setWindow g a b c d = (.ok (), { g with window := ⟨a, b, c, d⟩ })) := by
  constructor
  · intro h
    unfold setWindow
    rcases h with h | h <;> simp [h]
  · intro h
    unfold setWindow
    rw [qle_eq_false_of_qlt h.1, qle_eq_false_of_qlt h.2]
    simp

/-- C7 witness: `setWindow(5, 1, -10, 10)` fails and preserves the
state; `setWindow(-5, 5, -10, 10)` succeeds and stores the bounds. -/
theorem setWindow_spec_witness :
    setWindow (initGraphing initEngine) 5 1 ⟨-10, 1⟩ 10 =
      (.error windowMsg, initGraphing initEngine) ∧
    setWindow (initGraphing initEngine) ⟨-5, 1⟩ 5 ⟨-10, 1⟩ 10 =
      (.ok (), { initGraphing initEngine with window := ⟨⟨-5, 1⟩, 5, ⟨-10, 1⟩, 10⟩ }) :=
  ⟨(setWindow_spec (initGraphing initEngine) 5 1 ⟨-10, 1⟩ 10).1 (by decide),
   (setWindow_spec (initGraphing initEngine) ⟨-5, 1⟩ 5 ⟨-10, 1⟩ 10).2 (by decide)⟩

/-- C10: `set_equation` with a blank expression removes the slot (and is
a no-op when the slot is absent, raising nothing); with non-blank
content it stores the trimmed string under the label, which is never the
empty string; storing and clearing preserve the invariant that no stored
slot value is empty. -/
theorem setEquation_spec (g : Graphing) (label s : String) :
    (pyStrip s.toList = [] →
      (setEquation g label s).equations = dictPop g.equations label ∧
      (dictLookup g.equations label = none → setEquation g label s = g) ∧
      ((g.equations.map Prod.fst).Nodup →
        dictLookup (setEquation g label s).equations label = none)) ∧
    (pyStrip s.toList ≠ [] →
      dictLookup (setEquation g label s).equations label =
        some (String.mk (pyStrip s.toList)) ∧
      String.mk (pyStrip s.toList) ≠ "") ∧
    ((∀ kv ∈ g.equations, kv.2 ≠ "") →
      ∀ kv ∈ (setEquation g label s).equations, kv.2 ≠ "") := by
  have htl : s.toList = s.data := rfl
  refine ⟨fun hb => ⟨?_, fun habs => ?_, fun hnd => ?_⟩, fun hnb => ⟨?_, ?_⟩, fun hinv kv hkv => ?_⟩
  · rw [htl] at hb
    simp [setEquation, String.toList, hb]
  · rw [htl] at hb
    simp [setEquation, String.toList, hb, dictPop_of_lookup_none habs]
  · rw [htl] at hb
    simp only [setEquation, String.toList, hb, ne_eq, not_true_eq_false, if_false]
    exact dictLookup_dictPop_none hnd
  · rw [htl] at hnb
    simp [setEquation, String.toList, hnb, dictLookup_dictInsert]
  · intro hc
    apply hnb
    have : (String.mk (pyStrip s.toList)).data = "".data := by rw [hc]
    simpa using this
  · by_cases hb : pyStrip s.data = []
    · simp only [setEquation, String.toList, hb, ne_eq, not_true_eq_false, if_false] at hkv
      exact hinv kv (mem_dictPop hkv)
    · simp only [setEquation, String.toList, hb, ne_eq, not_false_eq_true, if_true] at hkv
      rcases mem_dictInsert hkv with h | h
      · exact hinv kv h
      · subst h
        intro hc
        apply hb
        have : (String.mk (pyStrip s.data)).data = "".data := by
          simp only [Prod.snd] at hc
          rw [hc]
        simpa using this

/-- C10 witness: with `{"Y1": "x"}` stored, a blank `set_equation`
removes `Y1` (and a blank call on an absent label is a no-op), while a
padded expression is stored trimmed. -/
theorem setEquation_spec_witness :
    (setEquation { initGraphing initEngine with equations := [("Y1", "x")] } "Y1" " ").equations =
      dictPop [("Y1", "x")] "Y1" ∧
    setEquation (initGraphing initEngine) "Y2" " " = initGraphing initEngine ∧
    dictLookup (setEquation (initGraphing initEngine) "Y1" " x+1 ").equations "Y1" =
      some "x+1" :=
  ⟨((setEquation_spec { initGraphing initEngine with equations := [("Y1", "x")] } "Y1" " ").1
      (by decide)).1,
   (((setEquation_spec (initGraphing initEngine) "Y2" " ").1 (by decide)).2.1 (by decide)),
   ((setEquation_spec (initGraphing initEngine) "Y1" " x+1 ").2.1 (by decide)).1⟩

/-- C4: whenever `evaluate` fails (with any classified error message),
the history ledger after the call is exactly the ledger before it: the
failed expression is never appended. -/
theorem evaluate_error_keeps_history (st : Engine) (s msg : String)
    (h : (evaluate st s).1 = .error msg) :
    ((evaluate st s).2).history = st.history := by
  unfold evaluate at *
  cases hp : prepareExpression st s with
  | error m => simp [hp]
  | ok c =>
    cases hs : safeEval st none c with
    | error e => cases e <;> simp [hp, hs]
    | ok v => simp [hp, hs] at h

/-- C4 witness: the failing evaluation of `"sqrt(0-1)"` (a math-domain
error) leaves the history of a fresh engine empty. -/
theorem evaluate_error_keeps_history_witness :
    (evaluate initEngine "sqrt(0-1)").1 = .error mathMsg ∧
    ((evaluate initEngine "sqrt(0-1)").2).history = initEngine.history :=
  ⟨by decide, evaluate_error_keeps_history initEngine "sqrt(0-1)" mathMsg (by decide)⟩

/-- C1 (bug evidence): sampling `√(x)` over a domain containing `-1`
does not turn the per-point failure into a not-a-number entry: the
`ValueError` raised by `sqrt` at `-1` is not a `TI84Error` (only
`NameError` is converted), so it escapes `_evaluate_series` and the
whole series is lost instead of `[nan, 1.0]`. -/
theorem series_lets_valueError_escape :
    evaluateSeries (initGraphing initEngine) "√(x)" [⟨-1, 1⟩, 1] = .error .valueErr ∧
    evaluateFunction initEngine "√(x)" ⟨-1, 1⟩ = .error .valueErr := by
  constructor
  · decide
  · decide

/-- The complete set of identifiers resolvable during a plain
(non-sampling) evaluation: the whitelisted functions and constants, plus
`log10`, `fabs`, the `math` module object, the memory binding `M`, and
`__builtins__` (the key of `eval`'s globals dict, bound to `{}`). -/
def resolvableNames : List String :=
  ["sin", "cos", "tan", "asin", "acos", "atan", "log10", "sqrt", "factorial",
   "fabs", "exp", "ln", "log", "abs", "pow", "pi", "π", "e", "math", "M",
   "__builtins__"]

/-- Outside `resolvableNames`, no identifier resolves in a non-sampling
evaluation (the sampling variable `x` is only bound via `extra_context`). -/
theorem lookupName_eq_none {st : Engine} {n : String}
    (h : n ∉ resolvableNames) : lookupName st none n = none := by
  unfold lookupName
  split <;> simp_all [resolvableNames]

/-- C2 counterexample: `fabs` is not one of the whitelisted constants,
functions or live bindings named by the specification, yet evaluating
`"fabs(-3)"` succeeds with value `3` instead of failing with
`SyntaxError`. -/
theorem fabs_resolves_counterexample :
    "fabs" ∉ ["sin", "cos", "tan", "asin", "acos", "atan", "sqrt", "factorial",
              "abs", "exp", "ln", "log", "pow", "pi", "π", "e", "M", "x"] ∧
    (evaluate initEngine "fabs(-3)").1 = .ok ⟨"fabs(-3)", "3"⟩ := by
  constructor
  · decide
  · decide

/-- C2 (amended): every identifier outside the resolvable set — the
whitelist plus `log10`, `fabs`, `math` and `__builtins__` — is
unresolvable, and an expression consisting of such an identifier fails
in `_safe_eval` with `TI84Error("ERROR: SYNTAX")` (the `NameError`
conversion); `__builtins__` itself, by contrast, resolves to the emptied
builtins dict and fails only at `float(...)` with an unclassified
`TypeError`. -/
theorem unknown_identifier_syntax_error (st : Engine) (n s : String)
    (h1 : n ∉ resolvableNames)
    (h2 : parseExpr s.toList = some (Ast.name n)) :
    lookupName st none n = none ∧
    safeEval st none s = .error (.tiErr syntaxMsg) ∧
    lookupName st none "__builtins__" = some PyObj.emptyDict ∧
    safeEval st none "__builtins__" = .error PyExc.typeErr := by
  refine ⟨lookupName_eq_none h1, ?_, rfl, rfl⟩
  unfold safeEval
  rw [h2]
  have hfuel : 2 * s.length + 2 = (2 * s.length + 1) + 1 := rfl
  rw [hfuel]
  simp only [evalAst, lookupName_eq_none h1]

/-- C2 witness: the identifier `foo` is outside the resolvable set and
evaluates to `ERROR: SYNTAX`, while `__builtins__` resolves and fails
unclassified. -/
theorem unknown_identifier_syntax_error_witness :
    lookupName initEngine none "foo" = none ∧
    safeEval initEngine none "foo" = .error (.tiErr syntaxMsg) ∧
    lookupName initEngine none "__builtins__" = some PyObj.emptyDict ∧
    safeEval initEngine none "__builtins__" = .error PyExc.typeErr :=
  unknown_identifier_syntax_error initEngine "foo" "foo" (by decide) (by rfl)

/-- The character set of the engine's formatted numeric values: digits,
decimal point, signs and the exponent letter. -/
def isNumChar (c : Char) : Bool :=
  c.isDigit ∨ c = '.' ∨ c = '-' ∨ c = '+' ∨ c = 'e'

/-- A string of numeric-format characters only (every value stored in
history by `_format_result` satisfies this, see
`plainNumeric_formatResult`). -/
def plainNumeric (l : List Char) : Bool :=
  l.all isNumChar

/-- A character that is not a numeric-format character does not occur in
a `plainNumeric` string. -/
theorem not_mem_of_plainNumeric {l : List Char} (hl : plainNumeric l = true)
    {c : Char} (hc : isNumChar c = false) : c ∉ l := by
  intro hmem
  have := List.all_eq_true.mp hl c hmem
  rw [hc] at this
  exact Bool.noConfusion this

/-- Decimal digit characters are numeric-format characters. -/
theorem isNumChar_digitChar {d : Nat} (h : d < 10) : isNumChar (digitChar d) = true := by
  interval_cases d <;> decide

/-- All characters produced by the digit expansion are numeric. -/
theorem mem_natDigitsAux {x : Char} :
    ∀ {fuel n : Nat}, x ∈ natDigitsAux fuel n → isNumChar x = true := by
  intro fuel
  induction fuel with
  | zero => intro n h; simp [natDigitsAux] at h
  | succ f ih =>
    intro n h
    cases n with
    | zero => simp [natDigitsAux] at h
    | succ m =>
      rw [natDigitsAux] at h
      · rcases List.mem_append.mp h with h2 | h2
        · exact ih h2
        · have hx : x = digitChar ((m + 1) % 10) := by simpa using h2
          rw [hx]
          exact isNumChar_digitChar (Nat.mod_lt _ (by omega))
      · omega

/-- All characters of `natDigits` are numeric. -/
theorem mem_natDigits {x : Char} {n : Nat} (h : x ∈ natDigits n) : isNumChar x = true := by
  unfold natDigits at h
  by_cases hn : n = 0
  · rw [if_pos hn] at h
    have : x = '0' := by simpa using h
    rw [this]; decide
  · rw [if_neg hn] at h
    exact mem_natDigitsAux h

/-- All characters of `natStr` are numeric. -/
theorem mem_natStr {x : Char} {n : Nat} (h : x ∈ (natStr n).data) : isNumChar x = true :=
  mem_natDigits h

/-- All characters of `intStr` are numeric. -/
theorem mem_intStr {x : Char} {i : Int} (h : x ∈ (intStr i).data) : isNumChar x = true := by
  unfold intStr at h
  by_cases hi : i < 0
  · rw [if_pos hi] at h
    rcases List.mem_append.mp h with h2 | h2
    · have : x = '-' := by simpa using h2
      rw [this]; decide
    · exact mem_natStr h2
  · rw [if_neg hi] at h
    exact mem_natStr h

/-- `stripZeros` only removes characters. -/
theorem mem_stripZeros {x : Char} {l : List Char} (h : x ∈ stripZeros l) : x ∈ l := by
  unfold stripZeros at h
  rw [List.mem_reverse] at h
  have h2 := (List.dropWhile_suffix (fun c => c = '0')).sublist.subset h
  exact List.mem_reverse.mp h2

/-- All characters of the scientific mantissa are digits or the point. -/
theorem mem_g10mant {x : Char} {digits : List Char}
    (hd : ∀ y ∈ digits, isNumChar y = true) (h : x ∈ g10mant digits) :
    isNumChar x = true := by
  unfold g10mant at h
  split at h
  · rename_i d rest
    rcases List.mem_cons.mp h with h2 | h2
    · rw [h2]
      exact hd _ (by simp)
    · by_cases hc : stripZeros rest = []
      · rw [if_pos hc] at h2
        simp at h2
      · rw [if_neg hc] at h2
        rcases List.mem_cons.mp h2 with h3 | h3
        · rw [h3]; decide
        · exact hd _ (List.mem_cons_of_mem _ (mem_stripZeros h3))
  · have hx : x = '0' := by simpa using h
    rw [hx]; decide

/-- All characters of a `%g` rendering with a numeric sign and numeric
significand are numeric. -/
theorem mem_g10render {x : Char} {sign : List Char} {digits : List Char} {e : Int}
    (hs : ∀ y ∈ sign, isNumChar y = true)
    (hd : ∀ y ∈ digits, isNumChar y = true)
    (h : x ∈ g10render sign digits e) : isNumChar x = true := by
  unfold g10render at h
  split at h
  · split at h
    · rcases List.mem_append.mp h with h2 | h2
      · rcases List.mem_append.mp h2 with h3 | h3
        · exact hs _ h3
        · exact hd _ (List.take_subset _ _ h3)
      · by_cases hc : stripZeros (List.drop (e.toNat + 1) digits) = []
        · rw [if_pos hc] at h2
          simp at h2
        · rw [if_neg hc] at h2
          rcases List.mem_cons.mp h2 with h3 | h3
          · rw [h3]; decide
          · exact hd _ (List.drop_subset _ _ (mem_stripZeros h3))
    · rcases List.mem_append.mp h with h2 | h2
      · rcases List.mem_append.mp h2 with h3 | h3
        · rcases List.mem_append.mp h3 with h4 | h4
          · exact hs _ h4
          · have hx : x = '0' ∨ x = '.' := by simpa using h4
            rcases hx with h5 | h5 <;> (rw [h5]; decide)
        · have hx : x = '0' := List.eq_of_mem_replicate h3
          rw [hx]; decide
      · exact hd _ (mem_stripZeros h2)
  · rcases List.mem_append.mp h with h2 | h2
    · rcases List.mem_append.mp h2 with h3 | h3
      · rcases List.mem_append.mp h3 with h4 | h4
        · rcases List.mem_append.mp h4 with h5 | h5
          · exact hs _ h5
          · exact mem_g10mant hd h5
        · have hx : x = 'e' := by simpa using h4
          rw [hx]; decide
      · have hx : x = '-' ∨ x = '+' := by
          by_cases hc : e < 0
          · rw [if_pos hc] at h3
            exact Or.inl (by simpa using h3)
          · rw [if_neg hc] at h3
            exact Or.inr (by simpa using h3)
        rcases hx with h4 | h4 <;> (rw [h4]; decide)
    · by_cases hc : e.natAbs < 10
      · rw [if_pos hc] at h2
        rcases List.mem_cons.mp h2 with h4 | h4
        · rw [h4]; decide
        · exact mem_natDigits h4
      · rw [if_neg hc] at h2
        exact mem_natDigits h2

/-- All characters of the `%.10g` rendering are numeric. -/
theorem mem_g10 {x : Char} {v : PyNum} (h : x ∈ (g10 v).data) : isNumChar x = true := by
  unfold g10 at h
  split at h
  · have hx : x = '0' := by simpa using h
    rw [hx]; decide
  · refine mem_g10render ?_ (fun y hy => mem_natDigits hy) h
    intro y hy
    revert hy
    split
    · intro hy
      have : y = '-' := by simpa using hy
      rw [this]; decide
    · intro hy
      simp at hy

/-- Every formatted result consists only of numeric-format characters,
so a history value never contains a calculator glyph or an `Ans` token. -/
theorem plainNumeric_formatResult (v : PyNum) :
    plainNumeric (formatResult v).toList = true := by
  rw [plainNumeric, List.all_eq_true]
  intro x hx
  unfold formatResult at hx
  split at hx
  · exact mem_intStr hx
  · exact mem_g10 hx

/-- `pyReplace` with a single-character pattern absent from the input is
the identity. -/
theorem pyReplace_single_id {l rep : List Char} {p : Char} {ps : List Char} (h : p ∉ l) :
    pyReplace l (p :: ps) rep = l :=
  replaceAux_of_head_not_mem h

/-- `factSub` is the identity on `'!'`-free input. -/
theorem factSub_id {l : List Char} (h : '!' ∉ l) : factSub l = l :=
  factSubAux_eq_self h

/-- Substituting the previous-answer token into the bare token string
yields exactly the substitution value. -/
theorem pyReplace_ans_token (rep : List Char) :
    pyReplace ['A', 'n', 's'] ['A', 'n', 's'] rep = rep ++ [] := rfl

/-- C6: the translator replaces the previous-answer token with the most
recent ledger entry's formatted value — the literal `0` when the ledger
is empty — and the substituted value passes through the remaining
rewrites untouched, because every formatted value is a plain numeric
string; concretely, after `evaluate("3+4")` succeeds, `evaluate("Ans*2")`
evaluates to `14`. -/
theorem ans_substitution (st : Engine) :
    (∀ v : PyNum, plainNumeric (formatResult v).toList = true) ∧
    (st.history = [] → prepareExpression st "Ans" = .ok "0") ∧
    (∀ r, st.history.getLast? = some r → plainNumeric r.value.toList = true →
      prepareExpression st "Ans" = .ok r.value) ∧
    ((evaluate initEngine "3+4").1 = .ok ⟨"3+4", "7"⟩ ∧
      (evaluate (evaluate initEngine "3+4").2 "Ans*2").1 = .ok ⟨"Ans*2", "14"⟩) := by
  have hstrip : pyStrip "Ans".toList = ['A', 'n', 's'] := by decide
  have hnonempty : ¬ (pyStrip "Ans".toList = []) := by decide
  refine ⟨plainNumeric_formatResult, fun hemp => ?_, fun r hlast hnum => ?_, by decide, by decide⟩
  · have hans : ansValue st = "0" := by rw [ansValue, hemp]; rfl
    unfold prepareExpression
    rw [if_neg hnonempty, hstrip, hans]
    decide
  · have hans : ansValue st = r.value := by rw [ansValue, hlast]
    unfold prepareExpression
    rw [if_neg hnonempty, hstrip, hans, pyReplace_ans_token, List.append_nil]
    have hnm : ∀ c : Char, isNumChar c = false → c ∉ r.value.toList :=
      fun c hc => not_mem_of_plainNumeric hnum hc
    rw [pyReplace_single_id (hnm '^' (by decide)),
      pyReplace_single_id (hnm '×' (by decide)),
      pyReplace_single_id (hnm '÷' (by decide)),
      pyReplace_single_id (hnm '√' (by decide)),
      factSub_id (hnm '!' (by decide))]
    rfl

/-- C6 witness: with an empty ledger `Ans` translates to `0`; after
`evaluate("3+4")`, `Ans` translates to `7` and `Ans*2` evaluates to 14. -/
theorem ans_substitution_witness :
    prepareExpression initEngine "Ans" = .ok "0" ∧
    prepareExpression (evaluate initEngine "3+4").2 "Ans" = .ok "7" ∧
    (evaluate (evaluate initEngine "3+4").2 "Ans*2").1 = .ok ⟨"Ans*2", "14"⟩ :=
  ⟨(ans_substitution initEngine).2.1 rfl,
   (ans_substitution (evaluate initEngine "3+4").2).2.2.1 ⟨"3+4", "7"⟩ (by decide) (by decide),
   (ans_substitution initEngine).2.2.2.2⟩

/-- C9 counterexample: translating `"(1!)!"` leaves a postfix `!` in the
output (the factorial regex consumed the inner `!` as part of the
parenthesised group), and a second translation pass rewrites the result
again instead of being a no-op. -/
theorem translator_not_idempotent_counterexample :
    prepareExpression initEngine "(1!)!" = .ok "math.factorial(int((1!)))" ∧
    '!' ∈ "math.factorial(int((1!)))".toList ∧
    prepareExpression initEngine "math.factorial(int((1!)))" =
      .ok "math.factorial(int((math.factorial(int(1)))))" ∧
    prepareExpression initEngine "math.factorial(int((1!)))" ≠
      .ok "math.factorial(int((1!)))" ∧
    prepareExpression initEngine "An√x" = .ok "Ansqrtx" ∧
    prepareExpression initEngine "Ansqrtx" = .ok "0qrtx" := by
  refine ⟨by decide, by decide, by decide, by decide, by decide, by decide⟩

/-- C9 (amended): one translation pass does eliminate every `^`, `×`,
`÷` and `√` glyph from its output — whatever the engine state, because
any such glyph contributed by the substituted answer value is consumed
by the later replacement rules — but postfix `!` and the answer token
are not always eliminated, and a second pass is not always a no-op. -/
theorem translator_eliminates_glyphs (st : Engine) (s out : String)
    (h : prepareExpression st s = .ok out) :
    '^' ∉ out.toList ∧ '×' ∉ out.toList ∧ '÷' ∉ out.toList ∧ '√' ∉ out.toList := by
  unfold prepareExpression at h
  by_cases hs : pyStrip s.toList = []
  · rw [if_pos hs] at h
    exact absurd h (by simp)
  · rw [if_neg hs] at h
    simp only [Except.ok.injEq] at h
    have hout : out.toList = factSub
        (pyReplace
          (pyReplace
            (pyReplace
              (pyReplace
                (pyReplace (pyStrip s.toList) ['A', 'n', 's'] (ansValue st).toList)
                ['^'] ['*', '*'])
              ['×'] ['*'])
            ['÷'] ['/'])
          ['√'] ['s', 'q', 'r', 't']) := by
      rw [← h]
      rfl
    have hwrap : ∀ c : Char, c ∈ wrapChars →
        c = 'm' ∨ c = 'a' ∨ c = 't' ∨ c = 'h' ∨ c = '.' ∨ c = 'f' ∨ c = 'c' ∨ c = 'o' ∨
        c = 'r' ∨ c = 'i' ∨ c = 'l' ∨ c = '(' ∨ c = 'n' ∨ c = ')' := by decide
    refine ⟨fun hc => ?_, fun hc => ?_, fun hc => ?_, fun hc => ?_⟩ <;> rw [hout] at hc
    · rcases mem_factSubAux hc with hc | hc
      · rcases mem_replaceAux hc with hc | hc
        · rcases mem_replaceAux hc with hc | hc
          · rcases mem_replaceAux hc with hc | hc
            · exact not_mem_replaceAux_single (by decide) (Nat.le_refl _) hc
            · simp at hc
          · simp at hc
        · simp at hc
      · rcases hwrap _ hc with h | h | h | h | h | h | h | h | h | h | h | h | h | h <;>
          exact absurd h (by decide)
    · rcases mem_factSubAux hc with hc | hc
      · rcases mem_replaceAux hc with hc | hc
        · rcases mem_replaceAux hc with hc | hc
          · exact not_mem_replaceAux_single (by decide) (Nat.le_refl _) hc
          · simp at hc
        · simp at hc
      · rcases hwrap _ hc with h | h | h | h | h | h | h | h | h | h | h | h | h | h <;>
          exact absurd h (by decide)
    · rcases mem_factSubAux hc with hc | hc
      · rcases mem_replaceAux hc with hc | hc
        · exact not_mem_replaceAux_single (by decide) (Nat.le_refl _) hc
        · simp at hc
      · rcases hwrap _ hc with h | h | h | h | h | h | h | h | h | h | h | h | h | h <;>
          exact absurd h (by decide)
    · rcases mem_factSubAux hc with hc | hc
      · exact not_mem_replaceAux_single (by decide) (Nat.le_refl _) hc
      · rcases hwrap _ hc with h | h | h | h | h | h | h | h | h | h | h | h | h | h <;>
          exact absurd h (by decide)

/-- C9 witness: translating `"2^3×4÷√(9)"` produces a glyph-free
output. -/
theorem translator_eliminates_glyphs_witness :
    prepareExpression initEngine "2^3×4÷√(9)" = .ok "2**3*4/sqrt(9)" ∧
    '^' ∉ "2**3*4/sqrt(9)".toList ∧ '×' ∉ "2**3*4/sqrt(9)".toList ∧
    '÷' ∉ "2**3*4/sqrt(9)".toList ∧ '√' ∉ "2**3*4/sqrt(9)".toList :=
  ⟨by decide,
   (translator_eliminates_glyphs initEngine "2^3×4÷√(9)" "2**3*4/sqrt(9)" (by decide)).1,
   (translator_eliminates_glyphs initEngine "2^3×4÷√(9)" "2**3*4/sqrt(9)" (by decide)).2.1,
   (translator_eliminates_glyphs initEngine "2^3×4÷√(9)" "2**3*4/sqrt(9)" (by decide)).2.2.1,
   (translator_eliminates_glyphs initEngine "2^3×4÷√(9)" "2**3*4/sqrt(9)" (by decide)).2.2.2⟩

/-- C3 (bug evidence): the factorial rewrite produces calls to `int`,
but `int` is not resolvable in the restricted namespace
(`{"__builtins__": {}}` removes the builtins), so `"5!"`, `"(2+3)!"` and
`"-1!"` all fail with `ERROR: SYNTAX` instead of evaluating. -/
theorem factorial_rewrite_unresolvable :
    prepareExpression initEngine "5!" = .ok "math.factorial(int(5))" ∧
    safeEval initEngine none "math.factorial(int(5))" = .error (.tiErr syntaxMsg) ∧
    (evaluate initEngine "5!").1 = .error syntaxMsg ∧
    (evaluate initEngine "(2+3)!").1 = .error syntaxMsg ∧
    (evaluate initEngine "-1!").1 = .error syntaxMsg := by
  refine ⟨by decide, by decide, by decide, by decide, by decide⟩

/-- C8: result formatting — a finite value below `1e-10` in magnitude
formats as `"0"`; otherwise an integral value below `1e4` in magnitude
formats as the plain integer string; otherwise the value formats with
the 10-significant-digit `%.10g` rendering; concretely, `4/2` formats as
`"2"` and `1/3` as `"0.3333333333"`. -/
theorem format_result_spec (v : PyNum) :
    (v.qabs.qlt tinyBound = true → formatResult v = "0") ∧
    (v.qabs.qlt tinyBound = false → v.qabs.qlt intBound = true → v.isInt = true →
      formatResult v = intStr v.trunc) ∧
    (v.qabs.qlt tinyBound = false → ¬ (v.qabs.qlt intBound = true ∧ v.isInt = true) →
      formatResult v = g10 v) ∧
    (evaluate initEngine "4/2").1 = .ok ⟨"4/2", "2"⟩ ∧
    (evaluate initEngine "1/3").1 = .ok ⟨"1/3", "0.3333333333"⟩ := by
  refine ⟨fun h1 => ?_, fun h1 h2 h3 => ?_, fun h1 hn => ?_, by decide, by decide⟩
  · have hsnap : snapTiny v = 0 := by unfold snapTiny; rw [if_pos h1]
    unfold formatResult
    rw [hsnap]
    decide
  · have hsnap : snapTiny v = v := by
      unfold snapTiny
      rw [h1, if_neg Bool.false_ne_true]
    unfold formatResult
    rw [hsnap, if_pos ⟨h2, h3⟩]
  · have hsnap : snapTiny v = v := by
      unfold snapTiny
      rw [h1, if_neg Bool.false_ne_true]
    unfold formatResult
    rw [hsnap, if_neg hn]

/-- C8 witness: the three branches at `5e-11`, `7` and `1/3`, plus the
concrete pipeline outputs. -/
theorem format_result_spec_witness :
    formatResult ⟨1, 20000000000⟩ = "0" ∧
    formatResult ⟨7, 1⟩ = intStr (7 : Int) ∧
    formatResult ⟨1, 3⟩ = g10 ⟨1, 3⟩ ∧
    (evaluate initEngine "4/2").1 = .ok ⟨"4/2", "2"⟩ ∧
    (evaluate initEngine "1/3").1 = .ok ⟨"1/3", "0.3333333333"⟩ :=
  ⟨(format_result_spec ⟨1, 20000000000⟩).1 (by decide),
   (format_result_spec ⟨7, 1⟩).2.1 (by decide) (by decide) (by decide),
   (format_result_spec ⟨1, 3⟩).2.2.1 (by decide) (by decide),
   (format_result_spec ⟨7, 1⟩).2.2.2.1,
   (format_result_spec ⟨7, 1⟩).2.2.2.2⟩

end TI84
